import Mathlib

/-
Verification development for the pyquibbler invalidation/computation engine.

Each Python component relevant to the checked claims is shallowly embedded as
executable Lean definitions:

* `Pyqb.DeepData`    — nested values and deep path get/assign (§4.1 of the spec;
                       `pyquibbler/path/data_accessing.py` is absent from the
                       sources, so these two operations are modelled from the
                       spec's words).
* `Pyqb.Overrider`   — `pyquibbler/assignment/overrider.py`.
* `Pyqb.QuibOverride`— `QuibHandler.override` from `pyquibbler/quib/quib.py`.
* `Pyqb.Invalidation`— the invalidation fan-out from `pyquibbler/quib/quib.py`.
* `Pyqb.FuncCalling` — `pyquibbler/quib/func_calling/cached_quib_func_call.py`.
* `Pyqb.Caching`     — the cache-keeping decision from the same file.
* `Pyqb.Inversion`   — `pyquibbler/pyquibbler/inversion/`.
* `Pyqb.NumpyTrans`  — `NumpyForwardsPathTranslator.forward_translate` from
                       `pyquibbler/pyquibbler/translation/translators/numpy_translator.py`.
* `Pyqb.Definitions` — `pyquibbler/function_definitions/definitions.py`.

Machine-level details that the claims do not touch (weak references, graphics
collections, file syncing, timers/logging) are dropped; delegated computations
that live outside the checked functions (path translators, the cache's
validity bookkeeping) enter the models as explicit function-valued parameters.
-/

namespace Pyqb

namespace DeepData

/-- Nested data values: an atom (a number) or a list of sub-values.  This plays
the role of the nested array/object structures the Python engine indexes into. -/
inductive Data where
  | atom (v : Int)
  | node (children : List Data)

/-- Structural equality of nested data (Python `==` on the values). -/
def beqData : Data → Data → Bool
  | Data.atom x, Data.atom y => x == y
  | Data.node xs, Data.node ys => beqDataList xs ys
  | _, _ => false
where
  beqDataList : List Data → List Data → Bool
    | [], [] => true
    | a :: as, b :: bs => beqData a b && beqDataList as bs
    | _, _ => false

/-- Modelled from the spec: `deep_get(obj, path)` from
`pyquibbler/path/data_accessing.py` (absent from the sources).  §4.1: "returns
the sub-value addressed by applying each component in order"; fails when a
component cannot apply to the current sub-object (here: indexing an atom or an
out-of-range index), and an empty path addresses the whole object. -/
def deepGet : Data → List Nat → Option Data
  | d, [] => some d
  | Data.atom _, _ :: _ => none
  | Data.node cs, i :: rest => deepGetList cs i rest
where
  deepGetList : List Data → Nat → List Nat → Option Data
    | [], _, _ => none
    | c :: _, 0, rest => deepGet c rest
    | _ :: cs, n + 1, rest => deepGetList cs n rest

/-- Modelled from the spec: `deep_assign_data_in_path(obj, path, value)` from
`pyquibbler/path/data_accessing.py` (absent from the sources).  §4.1: "returns
a new top-level object with `value` written at `path`"; fails when any step is
inapplicable; an empty path replaces the whole object. -/
def deepAssign : Data → List Nat → Data → Option Data
  | _, [], v => some v
  | Data.atom _, _ :: _, _ => none
  | Data.node cs, i :: rest, v => (deepAssignList cs i rest v).map Data.node
where
  deepAssignList : List Data → Nat → List Nat → Data → Option (List Data)
    | [], _, _, _ => none
    | c :: cs, 0, rest, v => (deepAssign c rest v).map (fun c' => c' :: cs)
    | c :: cs, n + 1, rest, v => (deepAssignList cs n rest v).map (fun cs' => c :: cs')

end DeepData

namespace Overrider

open DeepData

/-- A path component as in `pyquibbler/path/path_component.py`: a dataclass
holding `indexed_cls` and `component`.  The component is abstracted to an index;
the indexed class to an optional class identifier. -/
structure OPathComponent where
  indexedCls : Option Nat
  component : Nat
  deriving DecidableEq

/-- Embeds `Path = List[PathComponent]` from `pyquibbler/path/path_component.py`. -/
abbrev OPath := List OPathComponent

/-- Embeds `Assignment` (dataclass with `path` and `value`). -/
structure OAssignment where
  path : OPath
  value : Data

/-- Embeds `AssignmentToDefault` (dataclass with `path`) from
`pyquibbler/assignment/overrider.py`. -/
structure OAssignmentToDefault where
  path : OPath
  deriving DecidableEq

/-- An entry of `Overrider._paths_to_assignments`:
`Union[Assignment, AssignmentToDefault]`. -/
inductive OEntry where
  | assign (a : OAssignment)
  | toDefault (d : OAssignmentToDefault)

/-- Python `==` on entries (dataclass structural equality; objects of the two
different dataclasses are never equal). -/
def beqEntry : OEntry → OEntry → Bool
  | OEntry.assign a, OEntry.assign b => a.path == b.path && beqData a.value b.value
  | OEntry.toDefault a, OEntry.toDefault b => a.path == b.path
  | _, _ => false

/-- Python `==` against the optional active assignment (`x == None` is `False`
for a dataclass instance). -/
def beqActive : Option OEntry → OEntry → Bool
  | none, _ => false
  | some a, e => beqEntry a e

/-- The path stored in an entry (`assignment.path` in the Python code, which is
well defined on both variants). -/
def OEntry.path : OEntry → OPath
  | OEntry.assign a => a.path
  | OEntry.toDefault d => d.path

/-- Modelled from the spec: `get_hashable_path` from `pyquibbler/path/hashable.py`
(absent from the sources).  §3: the Overrider is keyed by "a canonical hashable
form of a path"; we canonicalize by keeping the components' index values. -/
def hashablePath (p : OPath) : List Nat :=
  p.map (fun c => c.component)

/-- The dictionary `_paths_to_assignments`: an insertion-ordered mapping from
hashable path to entry, embedded as an association list in insertion order. -/
abbrev PathsToAssignments := List (List Nat × OEntry)

/-- Embeds `dict.pop(key)` on an insertion-ordered dictionary: drop the (unique) entry
with the given key, keeping the order of the others. -/
def removeKey (k : List Nat) : PathsToAssignments → PathsToAssignments
  | [] => []
  | (k', e) :: rest => if k' = k then rest else (k', e) :: removeKey k rest

/-- The keys of the mapping. -/
def keys (l : PathsToAssignments) : List (List Nat) := l.map Prod.fst

/-- Embeds `Overrider` state: the ordered path-to-assignment mapping and the currently
active assignment (`_active_assignment`). -/
structure State where
  pathsToAssignments : PathsToAssignments
  activeAssignment : Option OEntry

/-- Embeds `Overrider.__init__`: empty mapping, no active assignment. -/
def emptyState : State := ⟨[], none⟩

/-- Embeds `Overrider._add_to_paths_to_assignments`: "We need to first remove and then
add to make sure the new key value pair are now first in the dict" — pop the
hashable path if present, then insert the entry at the end. -/
def addToPathsToAssignments (e : OEntry) (l : PathsToAssignments) : PathsToAssignments :=
  let k := hashablePath e.path
  (if k ∈ keys l then removeKey k l else l) ++ [(k, e)]

/-- Embeds `copy.deepcopy(assignment)` followed by `component.indexed_cls = None` on
each path component (the body of `Overrider.add_assignment`). -/
def stripIndexedCls : OEntry → OEntry
  | OEntry.assign a => OEntry.assign ⟨a.path.map (fun c => ⟨none, c.component⟩), a.value⟩
  | OEntry.toDefault d => OEntry.toDefault ⟨d.path.map (fun c => ⟨none, c.component⟩)⟩

/-- Embeds `Overrider.add_assignment`: strip the indexed classes from a deep copy, set
it as the active assignment, and add it to the mapping. -/
def addAssignment (e : OEntry) (st : State) : State :=
  let e' := stripIndexedCls e
  ⟨addToPathsToAssignments e' st.pathsToAssignments, some e'⟩

/-- Embeds `Overrider.__len__`. -/
def State.length (st : State) : Nat := st.pathsToAssignments.length

/-- Embeds `AssignmentTemplate`, abstracted to its `convert` method (the only use the
Overrider makes of it). -/
structure Template where
  convert : Data → Data

/-- The data path addressed by an overrider path: the components' index values. -/
def dataPath (p : OPath) : List Nat := p.map (fun c => c.component)

/-- Embeds `deep_assign_data_in_path(data, path, value, raise_on_failure)`: on an
inapplicable path, raise when `raise_on_failure` else return the data
unchanged (wrapped in `Overrider.override` by the exception handler). -/
def deepAssignWithRaise (d : Data) (p : List Nat) (v : Data) (raiseOnFailure : Bool) :
    Except Unit Data :=
  match deepAssign d p v with
  | some d' => Except.ok d'
  | none => if raiseOnFailure then Except.error () else Except.ok d

/-- The body of one iteration of the loop in `Overrider.override`: compute the
value and path for the entry (an `AssignmentToDefault` pulls the sub-value out
of the original, non-overridden data; an `Assignment` converts its value
through the template when one is present), then deep-assign it, raising only
when the entry is the active assignment. -/
def overrideStep (originalData : Data) (template : Option Template)
    (active : Option OEntry) (d : Data) (e : OEntry) : Except Unit Data :=
  match e with
  | OEntry.toDefault dd =>
    match deepGet originalData (dataPath dd.path) with
    | none => Except.error ()
    | some value => deepAssignWithRaise d (dataPath dd.path) value (beqActive active e)
  | OEntry.assign a =>
    let value := match template with
      | none => a.value
      | some t => t.convert a.value
    deepAssignWithRaise d (dataPath a.path) value (beqActive active e)

/-- Embeds `Overrider.override(data, assignment_template)`: deep-copy the data (the
model is pure, so the copy is the identity) and replay every recorded entry in
insertion order. -/
def override (st : State) (data : Data) (template : Option Template) : Except Unit Data :=
  (st.pathsToAssignments.map Prod.snd).foldlM
    (overrideStep data template st.activeAssignment) data

/-- The value the claim says each replayed entry writes: an `Assignment` writes
its value converted through the template when a template is present; an
`AssignmentToDefault` writes the corresponding sub-value fetched from the
original, non-overridden data.  Follows the spec's words (§3), to be compared
with `override` above. -/
def claimedWrittenValue (originalData : Data) (template : Option Template)
    (e : OEntry) : Option Data :=
  match e with
  | OEntry.toDefault dd => deepGet originalData (dataPath dd.path)
  | OEntry.assign a =>
    some (match template with
      | none => a.value
      | some t => t.convert a.value)

/-- Replay in insertion order of the claimed written values, with the same
failure discipline as the code (a failed fetch from the original raises; a
failed write raises only for the active entry).  Follows the spec's words, to
be compared with `override`. -/
def overrideSpec (st : State) (data : Data) (template : Option Template) :
    Except Unit Data :=
  (st.pathsToAssignments.map Prod.snd).foldlM
    (fun d e =>
      match claimedWrittenValue data template e with
      | none => Except.error ()
      | some v => deepAssignWithRaise d (dataPath e.path) v (beqActive st.activeAssignment e))
    data

end Overrider

namespace QuibOverride

open Overrider

/-- The slice of `QuibHandler` state that `QuibHandler.override` reads and
writes.  The quib itself is identified by `quibId` (used when raising
`OverridingNotAllowedException(self.quib, assignment)`).  The calls
`on_type_change`, `invalidate_and_redraw_at_path`, `push_assignment_to_undo_stack`
and `data_changed` act on collaborators; the model records them as events. -/
structure HandlerState where
  quibId : Nat
  allowOverriding : Bool
  overrider : Overrider.State
  typeChanges : Nat
  invalidatedPaths : List OPath
  undoPushes : List (Nat × OPath × Nat)
  fileSyncChanges : Nat

/-- Embeds `OverridingNotAllowedException(quib, assignment)`: carries the quib and the
attempted assignment. -/
structure OverridingNotAllowedErr where
  quib : Nat
  assignment : OAssignment

/-- Embeds `QuibHandler.override(assignment, allow_overriding_from_now_on)` from
`pyquibbler/quib/quib.py`, as a state transformer.  Mutations run in the
code's statement order, so the returned state on an exception reflects exactly
the mutations performed before the raise. -/
def handlerOverride (st : HandlerState) (assignment : OAssignment)
    (allowOverridingFromNowOn : Bool) (isWithinDrag : Bool) :
    HandlerState × Option OverridingNotAllowedErr :=
  let st := if allowOverridingFromNowOn then { st with allowOverriding := true } else st
  if st.allowOverriding = false then
    (st, some ⟨st.quibId, assignment⟩)
  else
    let st := { st with overrider := addAssignment (OEntry.assign assignment) st.overrider }
    let st := if assignment.path.length = 0 then { st with typeChanges := st.typeChanges + 1 } else st
    let st := { st with invalidatedPaths := assignment.path :: st.invalidatedPaths }
    let st :=
      if isWithinDrag = false then
        { st with
            undoPushes := (st.quibId, assignment.path, st.overrider.length - 1) :: st.undoPushes,
            fileSyncChanges := st.fileSyncChanges + 1 }
      else st
    (st, none)

end QuibOverride

namespace Invalidation

/-- Invalidation paths, with components abstracted to indices. -/
abbrev IPath := List Nat

/-- A cache-invalidation event: `invalidate_self` marking `path` invalid in the
cache of quib `quib`. -/
abbrev Event := Nat × IPath

/-- The dependency graph together with the delegated computations that
`_invalidate_quib_with_children_at_path` calls into.  `children q` lists the
(ids of the) quibs registered as children of `q`.  `isDataSource c q` states
whether `q` is among `c.quib_function_call.get_data_sources()`.  The two
translator fields stand for `_forward_translate_without_retrieving_metadata`
and `_forward_translate_with_retrieving_metadata` run for child `c` with
invalidator `q`; `none` models `NoTranslatorsFoundException`.
`completelyOverridden c p` stands for
`c._is_completely_overridden_at_first_component(p)`. -/
structure QuibSystem where
  children : Nat → List Nat
  isDataSource : Nat → Nat → Bool
  translateNoMeta : Nat → Nat → IPath → Option (List (Option IPath))
  translateWithMeta : Nat → Nat → IPath → Option (List (Option IPath))
  completelyOverridden : Nat → IPath → Bool

/-- Embeds `QuibHandler._get_paths_for_children_invalidation(invalidator_quib, path)`
run on child `child`: parameter-source invalidators forward to `[[]]`
(invalidate all); otherwise try forward translation without metadata, then
with metadata, then fall back to `[[]]`. -/
def getPathsForChildrenInvalidation (sys : QuibSystem) (child invalidator : Nat)
    (path : IPath) : List (Option IPath) :=
  if sys.isDataSource child invalidator = false then [some []]
  else
    match sys.translateNoMeta child invalidator path with
    | some paths => paths
    | none =>
      match sys.translateWithMeta child invalidator path with
      | some paths => paths
      | none => [some []]

/-- Embeds `QuibHandler._invalidate_children_at_path(path)` on quib `q`: invalidate
every child of `q` with `q` as invalidator.  The fuel argument bounds the
recursion depth; the Python code relies on the graph's acyclicity for
termination, so any fuel at least the graph's depth computes the full
fan-out.  The produced list is the sequence of `invalidate_self` cache
markings, in execution order. -/
def invalidateChildrenAtPath (sys : QuibSystem) : Nat → Nat → IPath → List Event
  | 0, _, _ => []
  | fuel + 1, q, path =>
    (sys.children q).flatMap fun child =>
      (getPathsForChildrenInvalidation sys child q path).flatMap fun newPathOpt =>
        match newPathOpt with
        | none => []
        | some newPath =>
          (child, newPath) ::
            (if path.length = 0 ∨ sys.completelyOverridden child newPath = false then
              invalidateChildrenAtPath sys fuel child newPath
            else [])

/-- Embeds `QuibHandler._invalidate_quib_with_children_at_path(invalidator_quib, path)`
on quib `child`: for each translated new path, mark it invalid
(`invalidate_self`), then recurse into the child's own children unless the
incoming `path` is non-empty and the child is completely overridden at the
new path's first component. -/
def invalidateQuibWithChildren (sys : QuibSystem) (fuel : Nat)
    (invalidator child : Nat) (path : IPath) : List Event :=
  (getPathsForChildrenInvalidation sys child invalidator path).flatMap fun newPathOpt =>
    match newPathOpt with
    | none => []
    | some newPath =>
      (child, newPath) ::
        (if path.length = 0 ∨ sys.completelyOverridden child newPath = false then
          invalidateChildrenAtPath sys fuel child newPath
        else [])

/-- Embeds `QuibHandler.invalidate_and_redraw_at_path(path)` on quib `q` (path `none`
defaults to the whole object, `[]`); the redraw bookkeeping is outside the
model. -/
def invalidateAndRedrawAtPath (sys : QuibSystem) (fuel : Nat) (q : Nat)
    (path : Option IPath) : List Event :=
  invalidateChildrenAtPath sys fuel q (path.getD [])

/-- A concrete three-quib chain `0 → 1 → 2`: every edge is a data-source edge,
forward translation is the identity on paths, and quib `1` is completely
overridden at the first component of every path (as happens when a quib
carries a whole-object override, which validates its entire cache in
`_is_completely_overridden_at_first_component`). -/
def chainSystem : QuibSystem where
  children := fun q => if q = 0 then [1] else if q = 1 then [2] else []
  isDataSource := fun _ _ => true
  translateNoMeta := fun _ _ p => some [some p]
  translateWithMeta := fun _ _ p => some [some p]
  completelyOverridden := fun q _ => q == 1

end Invalidation

namespace FuncCalling

/-- Paths as seen by the translation machinery, components abstracted. -/
abbrev FPath := List Nat

/-- Whether a quib argument is a data source or a parameter source for the
function call (declared by the `FuncDefinition`). -/
inductive Role where
  | dataSource
  | parameterSource
  deriving DecidableEq

/-- One quib appearing in the call's args/kwargs, with its role. -/
structure ArgQuib where
  quib : Nat
  role : Role
  deriving DecidableEq

/-- The slice of a `CachedQuibFuncCall` that `_backwards_translate_path` and
`_get_args_and_kwargs_valid_at_quibs_to_paths` read.  Sources are identified
with the quibs they wrap (`sources_to_quibs` is a bijection built from the
call).  The two translator fields stand for `backwards_translate` without and
with shape/type metadata; `none` models `NoTranslatorsFoundException`; a
successful result maps (the quibs of) translated sources to their paths. -/
structure FuncCallModel where
  argQuibs : List ArgQuib
  translateNoMeta : FPath → Option (List (Nat × FPath))
  translateWithMeta : FPath → Option (List (Nat × FPath))

/-- Embeds `get_data_sources()`: the data-source quibs of the call. -/
def getDataSources (fc : FuncCallModel) : List Nat :=
  (fc.argQuibs.filter fun a => a.role = Role.dataSource).map fun a => a.quib

/-- Embeds `CachedQuibFuncCall._backwards_translate_path(valid_path)`: with no data
sources return `{}`; try translation without metadata, then with metadata; on
double failure return `{}`; on success return, for every data-source quib, the
translated path for its source, or `None` when the source is absent from the
translation (`sources_to_paths.get(source, None)`). -/
def backwardsTranslatePath (fc : FuncCallModel) (validPath : FPath) :
    List (Nat × Option FPath) :=
  if getDataSources fc = [] then []
  else
    match fc.translateNoMeta validPath with
    | some sourcesToPaths =>
      (getDataSources fc).map fun q => (q, sourcesToPaths.lookup q)
    | none =>
      match fc.translateWithMeta validPath with
      | some sourcesToPaths =>
        (getDataSources fc).map fun q => (q, sourcesToPaths.lookup q)
      | none => []

/-- The validity path at which one quib argument is requested
(`quib.get_value_valid_at_path(...)`) by
`_get_args_and_kwargs_valid_at_quibs_to_paths`: a parameter-source quib is
always requested fully valid (`[]`); a data-source quib is requested at
`quibs_to_valid_paths.get(quib)` — `None` (no validity requirement) when it is
absent from the mapping or mapped to `None`. -/
def requestedValidityPath (quibsToValidPaths : List (Nat × Option FPath)) :
    ArgQuib → Option FPath
  | ⟨q, Role.dataSource⟩ => (quibsToValidPaths.lookup q).bind id
  | ⟨_, Role.parameterSource⟩ => some []

/-- Embeds `_get_args_and_kwargs_valid_at_quibs_to_paths(quibs_to_valid_paths)`: the
call's quib arguments paired with the validity path each one is requested at. -/
def getArgsAndKwargsValidAtQuibsToPaths (fc : FuncCallModel)
    (quibsToValidPaths : List (Nat × Option FPath)) : List (Nat × Option FPath) :=
  fc.argQuibs.map fun a => (a.quib, requestedValidityPath quibsToValidPaths a)

end FuncCalling

namespace Caching

/-- Embeds `CacheMode` (called `CacheBehavior` in parts of the code): ON / OFF / AUTO. -/
inductive CacheMode where
  | on
  | off
  | auto
  deriving DecidableEq

/-- The slice of a `CachedQuibFuncCall` that the caching decision reads:
the `FuncDefinition` flags, the configured cache mode, the sticky `_caching`
flag and the cache (abstracted to an identifier; `none` is Python `None`). -/
structure CacheState where
  isRandom : Bool
  funcCanCreateGraphics : Bool
  cacheMode : CacheMode
  caching : Bool
  cache : Option Nat
  deriving DecidableEq

/-- Embeds `CachedQuibFuncCall._get_cache_behavior()`: forced ON for random or
graphics-producing functions, otherwise the configured mode. -/
def getCacheBehavior (st : CacheState) : CacheMode :=
  if st.isRandom || st.funcCanCreateGraphics then CacheMode.on else st.cacheMode

/-- Embeds `CachedQuibFuncCall._should_cache(result, elapsed_seconds)`: ON caches,
OFF does not, AUTO caches when the run took longer than
`MIN_SECONDS_FOR_CACHE` and `getsizeof(result) / elapsed_seconds` is below
`MAX_BYTES_PER_SECOND`.  The two constants live in `pyquibbler/quib/consts.py`
(absent from the sources) and are passed as parameters; sizes and durations
are embedded as rationals. -/
def shouldCache (minSecondsForCache maxBytesPerSecond : ℚ) (st : CacheState)
    (resultSize elapsedSeconds : ℚ) : Bool :=
  match getCacheBehavior st with
  | CacheMode.on => true
  | CacheMode.off => false
  | CacheMode.auto =>
    decide (elapsedSeconds > minSecondsForCache) &&
      decide (resultSize / elapsedSeconds < maxBytesPerSecond)

/-- The tail of `CachedQuibFuncCall.run`: after computing the result, set
`_caching` when `_should_cache` approves, and discard the cache when
`_caching` is off. -/
def runCacheUpdate (minSecondsForCache maxBytesPerSecond : ℚ) (st : CacheState)
    (resultSize elapsedSeconds : ℚ) : CacheState :=
  let caching :=
    if shouldCache minSecondsForCache maxBytesPerSecond st resultSize elapsedSeconds then true
    else st.caching
  { st with
      caching := caching,
      cache := if caching = false then none else st.cache }

end Caching

namespace Inversion

open DeepData

/-- An assignment as the inversion layer sees it: a requested new value at a
path in the function's output (components abstracted to indices). -/
structure IAssignment where
  path : List Nat
  value : Data

/-- Embeds `Inversal`: one source together with the assignment inversion derived for
it (`pyquibbler/pyquibbler/assignment/override_choice/types.py` /
inversion types). -/
structure Inversal where
  source : Nat
  assignment : IAssignment

/-- Embeds `Inverter._get_result_with_assignment_set` from
`pyquibbler/pyquibbler/inversion/inverter.py`: the previous result with the
assignment's value deep-set at the assignment's path. -/
def getResultWithAssignmentSet (previousResult : Data) (assignment : IAssignment) :
    Option Data :=
  deepAssign previousResult assignment.path assignment.value

/-- Embeds `TranspositionalOneToOneInverter._invert_value` from
`pyquibbler/pyquibbler/inversion/inverters/transpositional_inverter.py`: the
result value is returned unchanged (no arithmetic). -/
def transpositionalInvertValue (source : Nat) (pathInSource : List Nat)
    (resultValue : Data) (pathInResult : List Nat) : Data :=
  resultValue

/-- Modelled from the spec: `NumpyInverter.get_inversals`
(`pyquibbler/pyquibbler/inversion/inverters/numpy_inverter.py` is absent from
the sources).  §4.6: the backward index-code translation identifies, for each
implicated data source, the path in that source corresponding to the requested
output path (`backwardMapping`, produced by the registered
`BACKWARDS_TRANSLATOR_TYPE`); the inverter then reads the requested new value
out of the result-with-assignment-set at the requested output path and builds
one `Inversal` per implicated source, writing the value computed by
`_invert_value` at the translated path in the source. -/
def transpositionalGetInversals (previousResult : Data) (assignment : IAssignment)
    (backwardMapping : List (Nat × List Nat)) : Option (List Inversal) :=
  match getResultWithAssignmentSet previousResult assignment with
  | none => none
  | some resultWithSet =>
    match deepGet resultWithSet assignment.path with
    | none => none
    | some resultValue =>
      some (backwardMapping.map fun sp =>
        ⟨sp.1, ⟨sp.2, transpositionalInvertValue sp.1 sp.2 resultValue assignment.path⟩⟩)

end Inversion

namespace NumpyTrans

/-- The result of `forward_translate_masked_data_arguments_to_result_mask`: a
boolean mask.  `canonicalTrue` stands for the objects recognized by the
identity test `result_mask is True or result_mask is np_True` (the built-in
`True` and the module-level `np_True` singleton); `boolArray` is an ndarray
mask; `otherScalar` is any other scalar boolean object (e.g. a freshly
constructed `np.bool_`), which the identity test does not recognize even when
it holds `True`. -/
inductive MaskResult where
  | canonicalTrue
  | boolArray (elems : List Bool)
  | otherScalar (b : Bool)
  deriving DecidableEq

/-- Embeds `np.any(result_mask)`: whether the mask contains any `True` element. -/
def MaskResult.anyTrue : MaskResult → Bool
  | MaskResult.canonicalTrue => true
  | MaskResult.boolArray elems => elems.any id
  | MaskResult.otherScalar b => b

/-- Embeds `result_mask is True or result_mask is np_True`. -/
def MaskResult.isCanonicalTrue : MaskResult → Bool
  | MaskResult.canonicalTrue => true
  | _ => false

/-- A path component as built by the numpy translators: either a
boolean-mask component or any other component (abstracted to an index). -/
inductive NComp where
  | mask (m : MaskResult)
  | plain (k : Nat)
  deriving DecidableEq

/-- Paths of such components. -/
abbrev NPath := List NComp

/-- Embeds `NumpyForwardsPathTranslator.forward_translate` from
`pyquibbler/pyquibbler/translation/translators/numpy_translator.py`.  The
computation of the result mask and of the two path fragments
(`get_path_from_array_element_to_source`, `get_path_in_source_element`) is
delegated to the `ArrayPathTranslator` converter and the subclass hook, so
they enter as parameters. -/
def forwardTranslate (resultMask : MaskResult)
    (remainingPathToSource withinSourceElementPath : NPath) : List NPath :=
  if resultMask.anyTrue = false then []
  else
    let withinTargetArrayPath :=
      if resultMask.isCanonicalTrue then ([] : NPath) else [NComp.mask resultMask]
    [withinTargetArrayPath ++ remainingPathToSource ++ withinSourceElementPath]

end NumpyTrans

namespace Definitions

/-- Embeds `FuncDefinition`, reduced to the flags the registry lookup distinguishes
(the class itself, `pyquibbler/function_definitions/func_definition.py`, is
absent from the sources; its fields follow the spec's §3 description —
translators/inverters lists and source positions are not needed here). -/
structure FuncDefinition where
  isGraphics : Option Bool
  isRandom : Bool
  deriving DecidableEq

/-- Embeds `FuncDefinition(is_graphics=None)` with all other fields defaulted — the
fresh default definition returned for unknown functions. -/
def defaultFuncDefinition : FuncDefinition := ⟨none, false⟩

/-- The value of a Python attribute named `function_definition`: either an
actual `FuncDefinition` or some other object (which the `isinstance` check
rejects). -/
inductive AttrValue where
  | funcDef (d : FuncDefinition)
  | nonFuncDef (v : Nat)
  deriving DecidableEq

/-- A callable: its identity (the dictionary key) and its optional
`function_definition` attribute. -/
structure Callable where
  id : Nat
  functionDefinitionAttr : Option AttrValue
  deriving DecidableEq

/-- Embeds `hasattr(func, 'function_definition') and isinstance(func.function_definition,
FuncDefinition)`. -/
def carriesFuncDefinition : Callable → Bool
  | ⟨_, some (AttrValue.funcDef _)⟩ => true
  | _ => false

/-- Embeds `FUNCS_TO_DEFINITIONS_MODULE_NAME_ISOVERRIDDEN`, keyed by callable
identity; only the tuple's first slot (the registered definition, possibly
`None`) matters to the lookup. -/
abbrev Registry := List (Nat × Option FuncDefinition)

/-- Embeds `get_definition_for_function(func)` from
`pyquibbler/function_definitions/definitions.py`: prefer the callable's own
`function_definition` attribute when it holds a `FuncDefinition`; return a
fresh default definition for unregistered callables; otherwise return the
registered definition (Python `None` embeds as `none`). -/
def getDefinitionForFunction (registry : Registry) (func : Callable) :
    Option FuncDefinition :=
  match func.functionDefinitionAttr with
  | some (AttrValue.funcDef d) => some d
  | _ =>
    match registry.lookup func.id with
    | none => some defaultFuncDefinition
    | some registered => registered

end Definitions

/-
Theorems.  Helper lemmas come first, inside the component namespaces; the
claim theorems follow at the end of the file.
-/

namespace Overrider

theorem removeKey_of_not_mem {k : List Nat} :
    ∀ {l : PathsToAssignments}, k ∉ keys l → removeKey k l = l := by
  intro l
  induction l with
  | nil => intro _; rfl
  | cons hd tl ih =>
    intro h
    simp [keys] at h
    simp [removeKey, Ne.symm h.1, ih (by simp [keys, h.2])]

theorem keys_removeKey_subset {k : List Nat} :
    ∀ {l : PathsToAssignments}, keys (removeKey k l) ⊆ keys l := by
  intro l
  induction l with
  | nil => simp [removeKey]
  | cons hd tl ih =>
    by_cases hk : hd.1 = k
    · simp only [removeKey, hk, if_true, keys, List.map_cons]
      exact List.subset_cons_of_subset _ (by simp [keys])
    · simp only [removeKey, hk, if_false, keys, List.map_cons]
      exact List.cons_subset_cons _ ih

theorem not_mem_keys_removeKey {k : List Nat} :
    ∀ {l : PathsToAssignments}, (keys l).Nodup → k ∉ keys (removeKey k l) := by
  intro l
  induction l with
  | nil => simp [removeKey, keys]
  | cons hd tl ih =>
    intro hnd
    simp only [keys, List.map_cons, List.nodup_cons] at hnd
    by_cases hk : hd.1 = k
    · simp only [removeKey, hk, if_true]
      intro hmem
      exact hnd.1 (hk ▸ hmem)
    · simp only [removeKey, hk, if_false, keys, List.map_cons, List.mem_cons]
      rintro (h | h)
      · exact hk h.symm
      · exact ih hnd.2 h

theorem nodup_keys_removeKey {k : List Nat} :
    ∀ {l : PathsToAssignments}, (keys l).Nodup → (keys (removeKey k l)).Nodup := by
  intro l
  induction l with
  | nil => simp [removeKey]
  | cons hd tl ih =>
    intro hnd
    simp only [keys, List.map_cons, List.nodup_cons] at hnd
    by_cases hk : hd.1 = k
    · simpa [removeKey, hk] using hnd.2
    · simp only [removeKey, hk, if_false, keys, List.map_cons, List.nodup_cons]
      exact ⟨fun hmem => hnd.1 (keys_removeKey_subset hmem), ih hnd.2⟩

theorem addToPathsToAssignments_eq (e : OEntry) (l : PathsToAssignments) :
    addToPathsToAssignments e l
      = removeKey (hashablePath e.path) l ++ [(hashablePath e.path, e)] := by
  by_cases hmem : hashablePath e.path ∈ keys l
  · simp [addToPathsToAssignments, hmem]
  · simp [addToPathsToAssignments, hmem, removeKey_of_not_mem hmem]

theorem removeKey_append_single {k : List Nat} (e : OEntry) :
    ∀ {l : PathsToAssignments}, k ∉ keys l → removeKey k (l ++ [(k, e)]) = l := by
  intro l
  induction l with
  | nil => intro _; simp [removeKey]
  | cons hd tl ih =>
    intro h
    simp only [keys, List.map_cons, List.mem_cons] at h
    push_neg at h
    simp [removeKey, Ne.symm h.1, ih h.2]

theorem nodup_keys_addToPathsToAssignments (e : OEntry) {l : PathsToAssignments}
    (h : (keys l).Nodup) : (keys (addToPathsToAssignments e l)).Nodup := by
  rw [addToPathsToAssignments_eq]
  simp only [keys, List.map_append, List.map_cons, List.map_nil]
  rw [List.nodup_append]
  refine ⟨nodup_keys_removeKey h, by simp, ?_⟩
  intro x hx
  simp only [List.mem_singleton]
  intro hxk
  exact not_mem_keys_removeKey h (by simpa [keys, hxk] using hx)

theorem addToPathsToAssignments_idem (e : OEntry) {l : PathsToAssignments}
    (h : (keys l).Nodup) :
    addToPathsToAssignments e (addToPathsToAssignments e l)
      = addToPathsToAssignments e l := by
  simp only [addToPathsToAssignments_eq]
  rw [removeKey_append_single e (not_mem_keys_removeKey h)]

theorem hashablePath_strip (e : OEntry) :
    hashablePath (stripIndexedCls e).path = hashablePath e.path := by
  cases e <;> simp [stripIndexedCls, OEntry.path, hashablePath]

theorem addAssignment_idem (e : OEntry) {st : State}
    (h : (keys st.pathsToAssignments).Nodup) :
    addAssignment e (addAssignment e st) = addAssignment e st := by
  simp only [addAssignment]
  congr 1
  exact addToPathsToAssignments_idem _ h

end Overrider

namespace DeepData

theorem deepGet_deepAssign :
    ∀ (p : List Nat) (d v d' : Data), deepAssign d p v = some d' → deepGet d' p = some v := by
  intro p
  induction p with
  | nil =>
    intro d v d' h
    simp [deepAssign] at h
    simp [h, deepGet]
  | cons i rest ih =>
    intro d v d' h
    cases d with
    | atom a => simp [deepAssign] at h
    | node cs =>
      simp only [deepAssign, Option.map_eq_some'] at h
      obtain ⟨cs', hcs, rfl⟩ := h
      simp only [deepGet]
      revert hcs
      induction cs generalizing i cs' with
      | nil => intro hcs; simp [deepAssign.deepAssignList] at hcs
      | cons c ct ihc =>
        intro hcs
        cases i with
        | zero =>
          simp only [deepAssign.deepAssignList, Option.map_eq_some'] at hcs
          obtain ⟨c', hc, rfl⟩ := hcs
          simpa [deepGet.deepGetList] using ih _ _ _ hc
        | succ n =>
          simp only [deepAssign.deepAssignList, Option.map_eq_some'] at hcs
          obtain ⟨ct', hct, rfl⟩ := hcs
          simpa [deepGet.deepGetList] using ihc n ct' hct

end DeepData

/-- C2: override application is idempotent and last-write-wins per path: adding
an assignment whose path is already recorded removes the old entry and
reinserts the new one last, so at most one entry exists per path; applying the
same `Assignment` twice at the same path yields the same overrider state and
hence the same final value as applying it once; and after two successive
assignments at one path with values 5 then 7 the override list has length 1
holding value 7. -/
theorem claimC2_overrider_last_write_wins
    (st : Overrider.State) (e : Overrider.OEntry) (p : Overrider.OPath)
    (h : (Overrider.keys st.pathsToAssignments).Nodup) :
    (Overrider.addAssignment e st).pathsToAssignments
        = Overrider.removeKey (Overrider.hashablePath e.path) st.pathsToAssignments
            ++ [(Overrider.hashablePath e.path, Overrider.stripIndexedCls e)]
    ∧ (Overrider.keys (Overrider.addAssignment e st).pathsToAssignments).Nodup
    ∧ Overrider.addAssignment e (Overrider.addAssignment e st)
        = Overrider.addAssignment e st
    ∧ (∀ d tmpl,
        Overrider.override (Overrider.addAssignment e (Overrider.addAssignment e st)) d tmpl
          = Overrider.override (Overrider.addAssignment e st) d tmpl)
    ∧ (Overrider.addAssignment (Overrider.OEntry.assign ⟨p, DeepData.Data.atom 7⟩)
          (Overrider.addAssignment (Overrider.OEntry.assign ⟨p, DeepData.Data.atom 5⟩)
            Overrider.emptyState)).length = 1
    ∧ (Overrider.addAssignment (Overrider.OEntry.assign ⟨p, DeepData.Data.atom 7⟩)
          (Overrider.addAssignment (Overrider.OEntry.assign ⟨p, DeepData.Data.atom 5⟩)
            Overrider.emptyState)).pathsToAssignments
        = [(Overrider.hashablePath p,
            Overrider.stripIndexedCls (Overrider.OEntry.assign ⟨p, DeepData.Data.atom 7⟩))] := by
  have h57 : (Overrider.addAssignment (Overrider.OEntry.assign ⟨p, DeepData.Data.atom 7⟩)
      (Overrider.addAssignment (Overrider.OEntry.assign ⟨p, DeepData.Data.atom 5⟩)
        Overrider.emptyState)).pathsToAssignments
      = [(Overrider.hashablePath p,
          Overrider.stripIndexedCls (Overrider.OEntry.assign ⟨p, DeepData.Data.atom 7⟩))] := by
    simp [Overrider.addAssignment, Overrider.addToPathsToAssignments, Overrider.emptyState,
      Overrider.keys, Overrider.stripIndexedCls, Overrider.hashablePath, Overrider.OEntry.path,
      Overrider.removeKey, List.map_map, Function.comp]
  refine ⟨?_, ?_, ?_, ?_, ?_, h57⟩
  · simp only [Overrider.addAssignment]
    rw [Overrider.addToPathsToAssignments_eq, Overrider.hashablePath_strip]
  · exact Overrider.nodup_keys_addToPathsToAssignments _ h
  · exact Overrider.addAssignment_idem e h
  · intro d tmpl
    rw [Overrider.addAssignment_idem e h]
  · simp [Overrider.State.length, h57]

/-- Witness for C2 at a concrete overrider (the empty overrider, whose key
list trivially has no duplicates) and a concrete assignment. -/
theorem claimC2_overrider_last_write_wins_witness :
    (Overrider.keys Overrider.emptyState.pathsToAssignments).Nodup
    ∧ Overrider.addAssignment
          (Overrider.OEntry.assign ⟨[⟨some 3, 1⟩], DeepData.Data.atom 5⟩)
          (Overrider.addAssignment
            (Overrider.OEntry.assign ⟨[⟨some 3, 1⟩], DeepData.Data.atom 5⟩)
            Overrider.emptyState)
        = Overrider.addAssignment
            (Overrider.OEntry.assign ⟨[⟨some 3, 1⟩], DeepData.Data.atom 5⟩)
            Overrider.emptyState :=
  ⟨by simp [Overrider.emptyState, Overrider.keys],
    (claimC2_overrider_last_write_wins Overrider.emptyState
      (Overrider.OEntry.assign ⟨[⟨some 3, 1⟩], DeepData.Data.atom 5⟩)
      [⟨some 3, 1⟩]
      (by simp [Overrider.emptyState, Overrider.keys])).2.2.1⟩

/-- C3: on a node with `allow_overriding=False`, when the call does not
re-enable overriding, `QuibHandler.override` raises the
overriding-not-allowed exception carrying the node and the attempted
assignment, and returns with the state exactly as it was: no assignment is
recorded in the overrider, no type-change is signalled, no invalidation is
performed and nothing is pushed to the undo stack or the file syncer. -/
theorem claimC3_overriding_not_allowed
    (st : QuibOverride.HandlerState) (a : Overrider.OAssignment) (isWithinDrag : Bool)
    (h : st.allowOverriding = false) :
    QuibOverride.handlerOverride st a false isWithinDrag
      = (st, some ⟨st.quibId, a⟩) := by
  simp [QuibOverride.handlerOverride, h]

/-- Witness for C3 at a concrete handler state with overriding disallowed. -/
theorem claimC3_overriding_not_allowed_witness :
    (QuibOverride.HandlerState.allowOverriding
        ⟨7, false, Overrider.emptyState, 0, [], [], 0⟩ = false)
    ∧ QuibOverride.handlerOverride ⟨7, false, Overrider.emptyState, 0, [], [], 0⟩
          ⟨[⟨none, 0⟩], DeepData.Data.atom 1⟩ false false
        = (⟨7, false, Overrider.emptyState, 0, [], [], 0⟩,
            some ⟨7, ⟨[⟨none, 0⟩], DeepData.Data.atom 1⟩⟩) :=
  ⟨rfl,
    claimC3_overriding_not_allowed ⟨7, false, Overrider.emptyState, 0, [], [], 0⟩
      ⟨[⟨none, 0⟩], DeepData.Data.atom 1⟩ false rfl⟩

/-- C7: `Overrider.override(data, template)` replays every recorded entry in
insertion order on (a deep copy of) the incoming data — the model is pure, so
the deep copy is the identity — writing, for an `Assignment` entry, the
assignment's value converted through the assignment template when a template
is present, and, for an `AssignmentToDefault` entry, the corresponding
sub-value fetched from the original, non-overridden data. -/
theorem claimC7_override_replay
    (st : Overrider.State) (data : DeepData.Data) (template : Option Overrider.Template) :
    Overrider.override st data template = Overrider.overrideSpec st data template := by
  have hstep : Overrider.overrideStep data template st.activeAssignment
      = fun d e =>
          match Overrider.claimedWrittenValue data template e with
          | none => Except.error ()
          | some v =>
            Overrider.deepAssignWithRaise d (Overrider.dataPath e.path) v
              (Overrider.beqActive st.activeAssignment e) := by
    funext d e
    cases e <;> rfl
  simp only [Overrider.override, Overrider.overrideSpec, hstep]

namespace FuncCalling

theorem lookup_eq_none_of_not_mem {k : Nat} :
    ∀ {l : List (Nat × Option FPath)}, k ∉ l.map Prod.fst → l.lookup k = none := by
  intro l
  induction l with
  | nil => intro _; rfl
  | cons hd tl ih =>
    intro h
    simp only [List.map_cons, List.mem_cons] at h
    push_neg at h
    have hb : (k == hd.1) = false := beq_eq_false_iff_ne.mpr h.1
    simp [List.lookup, hb, ih h.2]

theorem lookup_eq_some_of_mem {k : Nat} {v : Option FPath} :
    ∀ {l : List (Nat × Option FPath)}, (l.map Prod.fst).Nodup → (k, v) ∈ l →
      l.lookup k = some v := by
  intro l
  induction l with
  | nil => simp
  | cons hd tl ih =>
    intro hnd hmem
    simp only [List.map_cons, List.nodup_cons] at hnd
    rcases List.mem_cons.mp hmem with heq | hmem'
    · subst heq
      simp [List.lookup]
    · have hk : k ≠ hd.1 := by
        intro hkk
        exact hnd.1 (hkk ▸ List.mem_map_of_mem Prod.fst hmem')
      have hb : (k == hd.1) = false := beq_eq_false_iff_ne.mpr hk
      simp [List.lookup, hb, ih hnd.2 hmem']

end FuncCalling

/-- C5: when preparing arguments for a run on an uncached path, every
parameter-source quib is requested fully valid — at the empty path — no
matter what the translation mapping holds, while a data-source quib is
requested exactly at its backward-translated sub-path from the mapping, and
with no validity requirement at all (path `None`) when it is absent from the
mapping. -/
theorem claimC5_argument_validity (fc : FuncCalling.FuncCallModel)
    (quibsToValidPaths : List (Nat × Option FuncCalling.FPath))
    (a : FuncCalling.ArgQuib) (ha : a ∈ fc.argQuibs) :
    ((a.quib, FuncCalling.requestedValidityPath quibsToValidPaths a)
        ∈ FuncCalling.getArgsAndKwargsValidAtQuibsToPaths fc quibsToValidPaths)
    ∧ (a.role = FuncCalling.Role.parameterSource →
        FuncCalling.requestedValidityPath quibsToValidPaths a = some [])
    ∧ (a.role = FuncCalling.Role.dataSource →
        ((quibsToValidPaths.map Prod.fst).Nodup →
          ∀ p, (a.quib, some p) ∈ quibsToValidPaths →
            FuncCalling.requestedValidityPath quibsToValidPaths a = some p)
        ∧ (a.quib ∉ quibsToValidPaths.map Prod.fst →
            FuncCalling.requestedValidityPath quibsToValidPaths a = none)) := by
  obtain ⟨q, r⟩ := a
  refine ⟨?_, ?_, ?_⟩
  · exact List.mem_map_of_mem _ ha
  · intro hr
    cases r with
    | dataSource => cases hr
    | parameterSource => rfl
  · intro hr
    cases r with
    | parameterSource => cases hr
    | dataSource =>
      constructor
      · intro hnd p hp
        simp [FuncCalling.requestedValidityPath,
          FuncCalling.lookup_eq_some_of_mem hnd hp]
      · intro hq
        simp [FuncCalling.requestedValidityPath,
          FuncCalling.lookup_eq_none_of_not_mem hq]

/-- Witness for C5 at a concrete call with one parameter-source quib and one
data-source quib, and a concrete translation mapping. -/
theorem claimC5_argument_validity_witness :
    ((⟨5, FuncCalling.Role.dataSource⟩ : FuncCalling.ArgQuib)
        ∈ FuncCalling.FuncCallModel.argQuibs
            ⟨[⟨4, FuncCalling.Role.parameterSource⟩, ⟨5, FuncCalling.Role.dataSource⟩],
              fun _ => none, fun _ => none⟩)
    ∧ (([(5, some [2])] : List (Nat × Option FuncCalling.FPath)).map Prod.fst).Nodup
    ∧ ((5 : Nat), some ([2] : FuncCalling.FPath)) ∈ ([(5, some [2])] : List (Nat × Option FuncCalling.FPath))
    ∧ FuncCalling.requestedValidityPath [(5, some [2])] ⟨5, FuncCalling.Role.dataSource⟩
        = some [2] :=
  ⟨by decide, by decide, by decide,
    ((claimC5_argument_validity
        ⟨[⟨4, FuncCalling.Role.parameterSource⟩, ⟨5, FuncCalling.Role.dataSource⟩],
          fun _ => none, fun _ => none⟩
        [(5, some [2])] ⟨5, FuncCalling.Role.dataSource⟩
        (by decide)).2.2 rfl).1 (by decide) [2] (by decide)⟩

/-- C4: when no registered translator matches (`NoTranslatorsFoundException`
from both the metadata-free and the metadata-using attempt), the failure is
recovered locally: `_backwards_translate_path` returns the empty mapping, so
argument preparation requests every data-source parent with no restricting
path, and `_get_paths_for_children_invalidation` collapses the child's
invalidation paths to the single empty path — the whole object. -/
theorem claimC4_no_translators_fallback
    (fc : FuncCalling.FuncCallModel) (validPath : FuncCalling.FPath)
    (sys : Invalidation.QuibSystem) (child q : Nat) (ip : Invalidation.IPath)
    (hb1 : fc.translateNoMeta validPath = none)
    (hb2 : fc.translateWithMeta validPath = none)
    (hf0 : sys.isDataSource child q = true)
    (hf1 : sys.translateNoMeta child q ip = none)
    (hf2 : sys.translateWithMeta child q ip = none) :
    FuncCalling.backwardsTranslatePath fc validPath = []
    ∧ (∀ a ∈ fc.argQuibs, a.role = FuncCalling.Role.dataSource →
        FuncCalling.requestedValidityPath
          (FuncCalling.backwardsTranslatePath fc validPath) a = none)
    ∧ Invalidation.getPathsForChildrenInvalidation sys child q ip = [some []] := by
  have hempty : FuncCalling.backwardsTranslatePath fc validPath = [] := by
    simp [FuncCalling.backwardsTranslatePath, hb1, hb2]
  refine ⟨hempty, ?_, ?_⟩
  · intro a _ hrole
    obtain ⟨aq, ar⟩ := a
    cases ar with
    | parameterSource => cases hrole
    | dataSource => simp [hempty, FuncCalling.requestedValidityPath, List.lookup]
  · simp [Invalidation.getPathsForChildrenInvalidation, hf0, hf1, hf2]

/-- Witness for C4 at a concrete call and a concrete graph edge whose
translators all fail. -/
theorem claimC4_no_translators_fallback_witness :
    FuncCalling.backwardsTranslatePath
        ⟨[⟨2, FuncCalling.Role.dataSource⟩], fun _ => none, fun _ => none⟩ [0] = []
    ∧ Invalidation.getPathsForChildrenInvalidation
        ⟨fun _ => [], fun _ _ => true, fun _ _ _ => none, fun _ _ _ => none, fun _ _ => false⟩
        1 0 [0] = [some []] :=
  ⟨(claimC4_no_translators_fallback
      ⟨[⟨2, FuncCalling.Role.dataSource⟩], fun _ => none, fun _ => none⟩ [0]
      ⟨fun _ => [], fun _ _ => true, fun _ _ _ => none, fun _ _ _ => none, fun _ _ => false⟩
      1 0 [0] rfl rfl rfl rfl rfl).1,
    (claimC4_no_translators_fallback
      ⟨[⟨2, FuncCalling.Role.dataSource⟩], fun _ => none, fun _ => none⟩ [0]
      ⟨fun _ => [], fun _ _ => true, fun _ _ _ => none, fun _ _ _ => none, fun _ _ => false⟩
      1 0 [0] rfl rfl rfl rfl rfl).2.2⟩

/-- C10: `get_definition_for_function` is total over callables: a callable
whose `function_definition` attribute holds a `FuncDefinition` yields that
definition; an unregistered callable yields the fresh default definition; and
otherwise the registered definition is returned as stored. -/
theorem claimC10_definition_lookup (registry : Definitions.Registry)
    (func : Definitions.Callable) :
    (∀ d, func.functionDefinitionAttr = some (Definitions.AttrValue.funcDef d) →
        Definitions.getDefinitionForFunction registry func = some d)
    ∧ (Definitions.carriesFuncDefinition func = false →
        registry.lookup func.id = none →
        Definitions.getDefinitionForFunction registry func
          = some Definitions.defaultFuncDefinition)
    ∧ (Definitions.carriesFuncDefinition func = false →
        ∀ registered, registry.lookup func.id = some registered →
          Definitions.getDefinitionForFunction registry func = registered) := by
  obtain ⟨fid, fattr⟩ := func
  refine ⟨?_, ?_, ?_⟩
  · intro d hd
    simp only at hd
    subst hd
    rfl
  · intro hc hl
    cases fattr with
    | none => simp [Definitions.getDefinitionForFunction, hl]
    | some v =>
      cases v with
      | funcDef d => cases hc
      | nonFuncDef n => simp [Definitions.getDefinitionForFunction, hl]
  · intro hc registered hl
    cases fattr with
    | none => simp [Definitions.getDefinitionForFunction, hl]
    | some v =>
      cases v with
      | funcDef d => cases hc
      | nonFuncDef n => simp [Definitions.getDefinitionForFunction, hl]

/-- Witness for C10 at a concrete unregistered callable with no
`function_definition` attribute. -/
theorem claimC10_definition_lookup_witness :
    Definitions.carriesFuncDefinition ⟨0, none⟩ = false
    ∧ (List.lookup (0 : Nat) ([] : Definitions.Registry) = none)
    ∧ Definitions.getDefinitionForFunction [] ⟨0, none⟩
        = some Definitions.defaultFuncDefinition :=
  ⟨rfl, rfl, (claimC10_definition_lookup [] ⟨0, none⟩).2.1 rfl rfl⟩

namespace Invalidation

theorem flatMap_mem_decomp {α β : Type} (f : α → List β) {l : List α} {x : α}
    (h : x ∈ l) : ∃ pre post, l.flatMap f = pre ++ f x ++ post := by
  obtain ⟨s, t, rfl⟩ := List.append_of_mem h
  exact ⟨s.flatMap f, t.flatMap f, by simp [List.flatMap_append]⟩

theorem flatMap_overridden_blocks (sys : QuibSystem) (fuel child : Nat)
    (path : IPath) (hlen : ¬ path.length = 0) :
    ∀ (l : List (Option IPath)),
      (∀ np, some np ∈ l → sys.completelyOverridden child np = true) →
      (l.flatMap fun newPathOpt =>
          match newPathOpt with
          | none => []
          | some newPath =>
            (child, newPath) ::
              (if path.length = 0 ∨ sys.completelyOverridden child newPath = false then
                invalidateChildrenAtPath sys fuel child newPath
              else []))
        = (l.reduceOption).map (fun np => (child, np)) := by
  intro l
  induction l with
  | nil => intro _; rfl
  | cons hd tl ih =>
    intro hov
    cases hd with
    | none =>
      simp only [List.flatMap_cons, List.reduceOption_cons_of_none, List.nil_append]
      exact ih fun np h => hov np (List.mem_cons_of_mem _ h)
    | some np =>
      have hnp : sys.completelyOverridden child np = true := hov np (List.mem_cons_self _ _)
      have hcond : ¬ (path.length = 0 ∨ sys.completelyOverridden child np = false) := by
        rintro (h | h)
        · exact hlen h
        · rw [hnp] at h
          cases h
      simp only [List.flatMap_cons, List.reduceOption_cons_of_some, List.map_cons,
        if_neg hcond]
      rw [ih fun np' h' => hov np' (List.mem_cons_of_mem _ h')]
      rfl

end Invalidation

/-- C1 counterexample: in the three-quib chain `0 → 1 → 2`, invalidating quib 0
at the whole object (path `[]`) forward-translates into quib 1's new path `[]`;
quib 1 is completely overridden at that path's first component, yet the
propagation still invalidates quib 2 downstream — because
`_invalidate_quib_with_children_at_path` recurses whenever the incoming path is
empty (`len(path) == 0`), regardless of override coverage.  This refutes "when
the override completely covers it, nothing downstream of the child is
invalidated for that sub-path" as stated. -/
theorem claimC1_invalidation_counterexample :
    Invalidation.QuibSystem.completelyOverridden Invalidation.chainSystem 1 [] = true
    ∧ (2, ([] : Invalidation.IPath))
        ∈ Invalidation.invalidateAndRedrawAtPath Invalidation.chainSystem 3 0 none := by
  have hrun : Invalidation.invalidateAndRedrawAtPath Invalidation.chainSystem 3 0 none
      = [(1, []), (2, [])] := by decide
  rw [hrun]
  exact ⟨rfl, by simp⟩

/-- C1 amended: during invalidation propagation, for every child and every new
path obtained by forward-translating a parent's change into that child, the
new path is first marked invalid in the child's cache and then invalidation
recurses into the child's own children, unless the parent's incoming path is
non-empty and the child's Overrider completely covers the new path with
explicit assignments at its first path component; when the incoming path is
non-empty and the override completely covers every new path, nothing
downstream of the child is invalidated — the propagation through that child
consists exactly of the child's own cache markings. -/
theorem claimC1_invalidation_amended (sys : Invalidation.QuibSystem)
    (fuel invalidator child : Nat) (path : Invalidation.IPath) :
    (∀ np, some np ∈ Invalidation.getPathsForChildrenInvalidation sys child invalidator path →
        ∃ pre post,
          Invalidation.invalidateQuibWithChildren sys fuel invalidator child path
            = pre ++ ((child, np) ::
                (if path.length = 0 ∨ sys.completelyOverridden child np = false then
                  Invalidation.invalidateChildrenAtPath sys fuel child np
                else [])) ++ post)
    ∧ (path ≠ [] →
        (∀ np, some np ∈ Invalidation.getPathsForChildrenInvalidation sys child invalidator path →
            sys.completelyOverridden child np = true) →
        Invalidation.invalidateQuibWithChildren sys fuel invalidator child path
          = ((Invalidation.getPathsForChildrenInvalidation sys child invalidator
                path).reduceOption).map (fun np => (child, np))) := by
  constructor
  · intro np hnp
    exact Invalidation.flatMap_mem_decomp
      (fun newPathOpt =>
        match newPathOpt with
        | none => []
        | some newPath =>
          (child, newPath) ::
            (if path.length = 0 ∨ sys.completelyOverridden child newPath = false then
              Invalidation.invalidateChildrenAtPath sys fuel child newPath
            else []))
      hnp
  · intro hne hov
    have hlen : ¬ path.length = 0 := by
      simpa [List.length_eq_zero] using hne
    exact Invalidation.flatMap_overridden_blocks sys fuel child path hlen
      (Invalidation.getPathsForChildrenInvalidation sys child invalidator path) hov

/-- Witness for C1 amended: in the chain system, invalidating quib 1 (child of
quib 0) at the non-empty path `[0]` with quib 1 completely overridden at the
translated new path leaves nothing downstream invalidated. -/
theorem claimC1_invalidation_amended_witness :
    (([0] : Invalidation.IPath) ≠ [])
    ∧ Invalidation.invalidateQuibWithChildren Invalidation.chainSystem 2 0 1 [0]
        = ((Invalidation.getPathsForChildrenInvalidation Invalidation.chainSystem 1 0
              [0]).reduceOption).map (fun np => (1, np)) :=
  ⟨by simp,
    (claimC1_invalidation_amended Invalidation.chainSystem 2 0 1 [0]).2 (by simp)
      (by
        intro np hnp
        have hl : Invalidation.getPathsForChildrenInvalidation Invalidation.chainSystem 1 0 [0]
            = [some [0]] := rfl
        rw [hl] at hnp
        simp only [List.mem_singleton, Option.some.injEq] at hnp
        subst hnp
        rfl)⟩

/-- C6 counterexample: in AUTO mode, when the sticky `_caching` flag was
already set to `True` by an earlier run, a later run whose measured time does
not exceed the minimum-seconds threshold still keeps its cache — contradicting
"a run's result is kept cached only when the measured run time exceeds the
minimum-seconds threshold and the result's bytes-per-second is below the
maximum threshold". -/
theorem claimC6_caching_counterexample :
    Caching.getCacheBehavior ⟨false, false, Caching.CacheMode.auto, true, some 0⟩
        = Caching.CacheMode.auto
    ∧ ¬ ((1 / 2 : ℚ) > 1 ∧ (1 : ℚ) / (1 / 2) < 100)
    ∧ (Caching.runCacheUpdate 1 100
          ⟨false, false, Caching.CacheMode.auto, true, some 0⟩ 1 (1 / 2)).cache = some 0 := by
  have hsc : Caching.shouldCache 1 100
      ⟨false, false, Caching.CacheMode.auto, true, some 0⟩ 1 (1 / 2) = false := by
    simp only [Caching.shouldCache, Caching.getCacheBehavior]
    norm_num
  exact ⟨rfl, by norm_num, by simp [Caching.runCacheUpdate, hsc]⟩

/-- C6 amended: caching is forced ON for random or graphics-producing
functions; under AUTO, provided the sticky `_caching` flag was not already
enabled by an earlier run, a run's result is kept cached exactly when the
measured run time exceeds the minimum-seconds threshold and the result's
bytes-per-second is below the maximum threshold; and whenever the final
caching decision is off, the cache is discarded (set to `None`) at the end of
`run`. -/
theorem claimC6_caching_amended (minSecondsForCache maxBytesPerSecond : ℚ)
    (st : Caching.CacheState) (resultSize elapsedSeconds : ℚ) :
    ((st.isRandom = true ∨ st.funcCanCreateGraphics = true) →
        Caching.getCacheBehavior st = Caching.CacheMode.on
        ∧ Caching.shouldCache minSecondsForCache maxBytesPerSecond st
            resultSize elapsedSeconds = true)
    ∧ (Caching.getCacheBehavior st = Caching.CacheMode.auto → st.caching = false →
        ((elapsedSeconds > minSecondsForCache
              ∧ resultSize / elapsedSeconds < maxBytesPerSecond) →
            (Caching.runCacheUpdate minSecondsForCache maxBytesPerSecond st
                resultSize elapsedSeconds).caching = true
            ∧ (Caching.runCacheUpdate minSecondsForCache maxBytesPerSecond st
                resultSize elapsedSeconds).cache = st.cache)
        ∧ (¬ (elapsedSeconds > minSecondsForCache
              ∧ resultSize / elapsedSeconds < maxBytesPerSecond) →
            (Caching.runCacheUpdate minSecondsForCache maxBytesPerSecond st
                resultSize elapsedSeconds).caching = false
            ∧ (Caching.runCacheUpdate minSecondsForCache maxBytesPerSecond st
                resultSize elapsedSeconds).cache = none))
    ∧ ((Caching.runCacheUpdate minSecondsForCache maxBytesPerSecond st
          resultSize elapsedSeconds).caching = false →
        (Caching.runCacheUpdate minSecondsForCache maxBytesPerSecond st
          resultSize elapsedSeconds).cache = none) := by
  refine ⟨?_, ?_, ?_⟩
  · intro h
    have hb : (st.isRandom || st.funcCanCreateGraphics) = true := by
      rcases h with h | h <;> simp [h]
    have hbeh : Caching.getCacheBehavior st = Caching.CacheMode.on := by
      simp [Caching.getCacheBehavior, hb]
    exact ⟨hbeh, by simp [Caching.shouldCache, hbeh]⟩
  · intro hauto hcaching
    constructor
    · intro hyes
      have hsc : Caching.shouldCache minSecondsForCache maxBytesPerSecond st
          resultSize elapsedSeconds = true := by
        simp [Caching.shouldCache, hauto, hyes.1, hyes.2]
      simp [Caching.runCacheUpdate, hsc]
    · intro hno
      have hsc : Caching.shouldCache minSecondsForCache maxBytesPerSecond st
          resultSize elapsedSeconds = false := by
        simp only [Caching.shouldCache, hauto]
        by_contra hc
        rw [Bool.not_eq_false, Bool.and_eq_true, decide_eq_true_iff, decide_eq_true_iff] at hc
        exact hno hc
      simp [Caching.runCacheUpdate, hsc, hcaching]
  · intro h
    simp only [Caching.runCacheUpdate] at h ⊢
    simp [h]

/-- Witness for C6 amended at a concrete AUTO state with caching not yet
enabled and an expensive run that passes the heuristic. -/
theorem claimC6_caching_amended_witness :
    Caching.getCacheBehavior ⟨false, false, Caching.CacheMode.auto, false, some 5⟩
        = Caching.CacheMode.auto
    ∧ Caching.CacheState.caching ⟨false, false, Caching.CacheMode.auto, false, some 5⟩ = false
    ∧ ((2 : ℚ) > 1 ∧ (1 : ℚ) / 2 < 100)
    ∧ ((Caching.runCacheUpdate 1 100 ⟨false, false, Caching.CacheMode.auto, false, some 5⟩
          1 2).caching = true
        ∧ (Caching.runCacheUpdate 1 100 ⟨false, false, Caching.CacheMode.auto, false, some 5⟩
          1 2).cache = some 5) :=
  ⟨rfl, rfl, by norm_num,
    (((claimC6_caching_amended 1 100 ⟨false, false, Caching.CacheMode.auto, false, some 5⟩
        1 2).2.1 rfl rfl).1 (by norm_num))⟩

/-- C9: `NumpyForwardsPathTranslator.forward_translate` returns no affected
paths when the computed result boolean mask holds no `True` element, and
otherwise returns exactly one path: the mask as first component — omitted when
the mask is the scalar `True` — followed by the remaining path to the source
and the path within the source element. -/
theorem claimC9_forward_translate_mask (m : NumpyTrans.MaskResult)
    (remainingPathToSource withinSourceElementPath : NumpyTrans.NPath) :
    (m.anyTrue = false →
        NumpyTrans.forwardTranslate m remainingPathToSource withinSourceElementPath = [])
    ∧ (m.anyTrue = true →
        (NumpyTrans.forwardTranslate m remainingPathToSource withinSourceElementPath).length = 1
        ∧ (m.isCanonicalTrue = true →
            NumpyTrans.forwardTranslate m remainingPathToSource withinSourceElementPath
              = [remainingPathToSource ++ withinSourceElementPath])
        ∧ (m.isCanonicalTrue = false →
            NumpyTrans.forwardTranslate m remainingPathToSource withinSourceElementPath
              = [NumpyTrans.NComp.mask m
                  :: (remainingPathToSource ++ withinSourceElementPath)])) := by
  constructor
  · intro h
    simp [NumpyTrans.forwardTranslate, h]
  · intro h
    refine ⟨?_, ?_, ?_⟩
    · simp [NumpyTrans.forwardTranslate, h]
    · intro hc
      simp [NumpyTrans.forwardTranslate, h, hc]
    · intro hc
      simp [NumpyTrans.forwardTranslate, h, hc]

/-- Witness for C9 at a concrete array mask with one `True` element. -/
theorem claimC9_forward_translate_mask_witness :
    (NumpyTrans.MaskResult.boolArray [false, true]).anyTrue = true
    ∧ (NumpyTrans.MaskResult.boolArray [false, true]).isCanonicalTrue = false
    ∧ NumpyTrans.forwardTranslate (NumpyTrans.MaskResult.boolArray [false, true])
        [NumpyTrans.NComp.plain 0] []
      = [NumpyTrans.NComp.mask (NumpyTrans.MaskResult.boolArray [false, true])
          :: ([NumpyTrans.NComp.plain 0] ++ [])] :=
  ⟨rfl, rfl,
    ((claimC9_forward_translate_mask (NumpyTrans.MaskResult.boolArray [false, true])
        [NumpyTrans.NComp.plain 0] []).2 rfl).2.2 rfl⟩

/-- C8: transpositional inversion performs no arithmetic on the assigned
value — whenever the assignment's path is applicable to the previous result,
every produced inversal writes the requested new output value unchanged, at
the source path that the (index-code) backward translation identified for its
source. -/
theorem claimC8_transpositional_writes_as_is
    (previousResult : DeepData.Data) (assignment : Inversion.IAssignment)
    (backwardMapping : List (Nat × List Nat)) (resultWithSet : DeepData.Data)
    (h : Inversion.getResultWithAssignmentSet previousResult assignment
        = some resultWithSet) :
    Inversion.transpositionalGetInversals previousResult assignment backwardMapping
      = some (backwardMapping.map fun sp => ⟨sp.1, ⟨sp.2, assignment.value⟩⟩)
    ∧ ∀ inversals, Inversion.transpositionalGetInversals previousResult assignment
          backwardMapping = some inversals →
        ∀ inv ∈ inversals,
          inv.assignment.value = assignment.value
          ∧ (inv.source, inv.assignment.path) ∈ backwardMapping := by
  have hget : DeepData.deepGet resultWithSet assignment.path = some assignment.value :=
    DeepData.deepGet_deepAssign _ _ _ _ h
  have heq : Inversion.transpositionalGetInversals previousResult assignment backwardMapping
      = some (backwardMapping.map fun sp => ⟨sp.1, ⟨sp.2, assignment.value⟩⟩) := by
    simp [Inversion.transpositionalGetInversals, h, hget,
      Inversion.transpositionalInvertValue]
  refine ⟨heq, ?_⟩
  intro inversals hinv inv hmem
  rw [heq] at hinv
  obtain rfl : inversals = backwardMapping.map fun sp => ⟨sp.1, ⟨sp.2, assignment.value⟩⟩ :=
    (Option.some_inj.mp hinv).symm
  simp only [List.mem_map] at hmem
  obtain ⟨sp, hsp, rfl⟩ := hmem
  exact ⟨rfl, hsp⟩

/-- Witness for C8 at a concrete previous result, assignment and backward
mapping. -/
theorem claimC8_transpositional_writes_as_is_witness :
    Inversion.getResultWithAssignmentSet
        (DeepData.Data.node [DeepData.Data.atom 1, DeepData.Data.atom 2])
        ⟨[0], DeepData.Data.atom 9⟩
      = some (DeepData.Data.node [DeepData.Data.atom 9, DeepData.Data.atom 2])
    ∧ Inversion.transpositionalGetInversals
        (DeepData.Data.node [DeepData.Data.atom 1, DeepData.Data.atom 2])
        ⟨[0], DeepData.Data.atom 9⟩ [(0, [1])]
      = some [⟨0, ⟨[1], DeepData.Data.atom 9⟩⟩] :=
  ⟨rfl,
    (claimC8_transpositional_writes_as_is
      (DeepData.Data.node [DeepData.Data.atom 1, DeepData.Data.atom 2])
      ⟨[0], DeepData.Data.atom 9⟩ [(0, [1])]
      (DeepData.Data.node [DeepData.Data.atom 9, DeepData.Data.atom 2]) rfl).1⟩

end Pyqb
